import Mathlib

/-!
Verification of the curry utility in src/src/index.ts.

The source transformer is

  function curry(fn) {
    const arity = fn.length;
    function curried(...args) {
      if (args.length >= arity) { return fn(...args); }
      else { return (...nextArgs) => curried(...args.concat(nextArgs)); }
    }
    return curried;
  }

Shallow embedding: a Source Function is a Lean function on the full list of
supplied arguments (JS `fn(...args)` spreads the whole accumulated array, so
the callee's view is exactly that list) together with an explicit arity
(`fn.length` in JS).  A stage is identified by the argument list it closes
over (the root closes over `[]`); one invocation of a stage concatenates the
captured list with the newly supplied list and performs one entry of
`curried`, which either returns the Source Function's result or a new stage
closing over the combined list.  All array operations in the source
(`concat`, spreading) are non-mutating, so the pure embedding is faithful.
-/

universe u v

namespace Curry

/-- Outcome of one entry of `curried` (src/src/index.ts lines 32-38): either
the Source Function's result, or a fresh stage closing over the accumulated
argument list carried by the `next` constructor. -/
inductive StepResult (α : Type u) (β : Type v) where
  | result : β → StepResult α β
  | next : List α → StepResult α β
deriving DecidableEq

/-- One entry of `curried` with full accumulated argument list `args`
(src/src/index.ts lines 31-39): if `args.length >= arity` the Source Function
is called with the entire list `args` (the source spreads all of `args`, not a
prefix); otherwise a new stage closing over `args` is returned. -/
def curried (fn : List α → β) (arity : Nat) (args : List α) : StepResult α β :=
  if arity ≤ args.length then .result (fn args) else .next args

/-- Invoking a stage that closed over `acc` with newly supplied `nextArgs`:
the closure on line 37 computes `args.concat(nextArgs)` and re-enters
`curried`.  The root stage returned by `curry` is the stage with `acc = []`. -/
def invokeStage (fn : List α → β) (arity : Nat) (acc nextArgs : List α) :
    StepResult α β :=
  curried fn arity (acc ++ nextArgs)

/-- The argument lists the Source Function is called with during one entry of
`curried`: exactly one call, with the full accumulated list, when the branch
on line 32 is taken, and none otherwise. -/
def curriedCalls (arity : Nat) (args : List α) : List (List α) :=
  if arity ≤ args.length then [args] else []

/-- Supplying successive argument batches to successive stages, starting from
a stage closing over `acc`: `some r` when the last batch triggers the Source
Function and yields `r`; `none` when the batches run out on an intermediate
stage, or continue past a result (calling a non-stage value). -/
def runBatches (fn : List α → β) (arity : Nat) :
    List (List α) → List α → Option β
  | [], _ => none
  | b :: bs, acc =>
    match curried fn arity (acc ++ b) with
    | .result r => if bs.isEmpty then some r else none
    | .next acc' => runBatches fn arity bs acc'

theorem curried_of_le {α : Type u} {β : Type v} (fn : List α → β)
    (arity : Nat) (args : List α) (h : arity ≤ args.length) :
    curried fn arity args = .result (fn args) := by
  simp [curried, h]

theorem curried_of_lt {α : Type u} {β : Type v} (fn : List α → β)
    (arity : Nat) (args : List α) (h : args.length < arity) :
    curried fn arity args = .next args := by
  simp [curried, Nat.not_le.mpr h]

theorem flatten_map_singleton {α : Type u} (as : List α) :
    (as.map (fun a => [a])).flatten = as := by
  induction as with
  | nil => rfl
  | cons a as ih => simp [List.map, ih]

/-- Running a chain of non-empty batches whose total length, together with the
already-accumulated prefix, is exactly the arity produces the Source
Function's value on the whole concatenation. -/
theorem runBatches_exact {α : Type u} {β : Type v} (fn : List α → β)
    (arity : Nat) :
    ∀ (batches : List (List α)) (acc : List α), batches ≠ [] →
      (∀ b ∈ batches, b ≠ []) →
      acc.length + batches.flatten.length = arity →
      runBatches fn arity batches acc = some (fn (acc ++ batches.flatten)) := by
  intro batches
  induction batches with
  | nil => intro acc h; exact absurd rfl h
  | cons b bs ih =>
    intro acc _ hb hlen
    cases bs with
    | nil =>
      simp only [List.flatten_cons, List.flatten_nil, List.append_nil,
        List.length_append] at hlen
      have hlen' : arity ≤ (acc ++ b).length := by
        simp only [List.length_append]; omega
      have hc := curried_of_le fn arity (acc ++ b) hlen'
      rw [runBatches, hc]
      simp
    | cons b' bs' =>
      have hbne : b' ≠ [] := hb b' (by simp)
      have h1 : 0 < b'.length := List.length_pos.mpr hbne
      simp only [List.flatten_cons, List.length_append] at hlen
      have hlt : (acc ++ b).length < arity := by
        simp only [List.length_append]; omega
      have hc := curried_of_lt fn arity (acc ++ b) hlt
      rw [runBatches, hc]
      have := ih (acc ++ b) (by simp) (fun x hx => hb x (List.mem_cons_of_mem b hx))
        (by simp only [List.flatten_cons, List.length_append]; omega)
      simpa [List.append_assoc] using this

/-!
Runtime model for the transformation-time behavior of `curry` itself
(src/src/index.ts lines 28-29, 42).  TypeScript's constraint `F extends
Function` exists only at compile time; at runtime the body of `curry` merely
reads `fn.length` (which is `undefined` for a non-callable primitive such as
`42`) and returns `curried` — it contains no validation and no throw.  A JS
`>=` comparison against `undefined` is `false`, so a stage over a
non-callable never takes the call branch.
-/

/-- A runtime value handed to `curry`: a callable carrying its declared
parameter count (`fn.length`) and call behavior, or a non-callable value such
as a number, whose `length` property reads as `undefined`. -/
inductive CurryArg (α : Type u) (β : Type v) where
  | callable : Nat → (List α → β) → CurryArg α β
  | notCallable : CurryArg α β

/-- The `length` property read on line 29: a number for a function,
`undefined` (modelled as `none`) for a non-callable value. -/
def lengthProp : CurryArg α β → Option Nat
  | .callable n _ => some n
  | .notCallable => none

/-- JS `args.length >= arity` where `arity` may be `undefined`: any `>=`
comparison with `undefined` evaluates to `false`. -/
def geJS (n : Nat) : Option Nat → Bool
  | some m => decide (m ≤ n)
  | none => false

/-- A stage of the runtime model: the value captured as `fn`, the `arity`
computed at transformation time, and the accumulated argument list. -/
structure JSStage (α : Type u) (β : Type v) where
  fnVal : CurryArg α β
  arity : Option Nat
  acc : List α

/-- Outcome of invoking a runtime-model stage: a result, a new stage, or the
TypeError JS raises on line 33 when a non-function is called. -/
inductive JSOutcome (α : Type u) (β : Type v) where
  | result : β → JSOutcome α β
  | next : JSStage α β → JSOutcome α β
  | typeError : JSOutcome α β

/-- The body of `curry` (lines 28-42): compute `arity = fn.length` and return
the root stage, unconditionally.  `Except` models a thrown transformation-time
error; the body contains no throw, so the result is always `ok`. -/
def curryTransform (x : CurryArg α β) : Except String (JSStage α β) :=
  Except.ok ⟨x, lengthProp x, []⟩

/-- Invoking a runtime-model stage: line 32's test with the JS comparison
semantics, then either the call `fn(...args)` (a TypeError when `fn` is not
callable) or a new stage over the combined list. -/
def invokeJSStage (s : JSStage α β) (xs : List α) : JSOutcome α β :=
  if geJS (s.acc ++ xs).length s.arity then
    match s.fnVal with
    | .callable _ f => .result (f (s.acc ++ xs))
    | .notCallable => .typeError
  else
    .next ⟨s.fnVal, s.arity, s.acc ++ xs⟩

/-- For genuinely callable inputs the runtime model agrees with the abstract
embedding `curried`: when the arity is reached, both call the function on the
full accumulated list. -/
theorem invokeJSStage_callable_le (n : Nat) (f : List α → β) (acc xs : List α)
    (h : n ≤ (acc ++ xs).length) :
    invokeJSStage ⟨.callable n f, some n, acc⟩ xs = .result (f (acc ++ xs)) := by
  have h' : geJS (acc ++ xs).length (some n) = true := decide_eq_true h
  simp only [invokeJSStage, h']
  rfl

/-- For genuinely callable inputs below arity the runtime model, like
`curried`, returns a stage over the combined list. -/
theorem invokeJSStage_callable_lt (n : Nat) (f : List α → β) (acc xs : List α)
    (h : (acc ++ xs).length < n) :
    invokeJSStage ⟨.callable n f, some n, acc⟩ xs =
      .next ⟨.callable n f, some n, acc ++ xs⟩ := by
  have h' : geJS (acc ++ xs).length (some n) = false :=
    decide_eq_false (Nat.not_le.mpr h)
  simp only [invokeJSStage, h']
  rfl

/-! Claim theorems. -/

/-- Claim C1: for every Source Function `fn` of arity `n` and every argument
sequence `a1, ..., an` (one application per argument, hence at least one
application), supplying the arguments one at a time through successive stages
of the curried form returns exactly the direct call `fn (a1, ..., an)`. -/
theorem stepwise_application_eq_direct_call {α : Type u} {β : Type v}
    (fn : List α → β) (arity : Nat) (a : α) (rest : List α)
    (h : (a :: rest).length = arity) :
    runBatches fn arity ((a :: rest).map (fun x => [x])) [] =
      some (fn (a :: rest)) := by
  have hmem : ∀ b ∈ (a :: rest).map (fun x => [x]), b ≠ [] := by
    intro b hb
    obtain ⟨x, _, rfl⟩ := List.mem_map.mp hb
    simp
  have := runBatches_exact fn arity ((a :: rest).map (fun x => [x])) []
    (by simp) hmem (by simp [flatten_map_singleton, h])
  simpa [flatten_map_singleton] using this

/-- Witness for C1 at the spec's concrete scenario:
`curry((a,b,c) => a+b+c)(1)(2)(3) = 6`. -/
theorem stepwise_application_witness :
    runBatches (fun l : List Nat => l.foldl (· + ·) 0) 3 [[1], [2], [3]] [] =
      some 6 :=
  stepwise_application_eq_direct_call (fun l : List Nat => l.foldl (· + ·) 0)
    3 1 [2, 3] rfl

/-- Claim C2: for every Source Function of arity `n`, every argument sequence
of length `n` and every grouping of it into consecutive non-empty batches,
supplying the batches to successive stages of the curried form returns exactly
the direct call on the whole sequence. -/
theorem grouped_application_eq_direct_call {α : Type u} {β : Type v}
    (fn : List α → β) (arity : Nat) (batches : List (List α))
    (h1 : batches ≠ []) (h2 : ∀ b ∈ batches, b ≠ [])
    (h3 : batches.flatten.length = arity) :
    runBatches fn arity batches [] = some (fn batches.flatten) := by
  simpa using runBatches_exact fn arity batches [] h1 h2 (by simpa using h3)

/-- Witness for C2 at the spec's concrete scenario:
`curry((a,b,c) => a+b+c)(1,2)(3) = 6`. -/
theorem grouped_application_witness :
    runBatches (fun l : List Nat => l.foldl (· + ·) 0) 3 [[1, 2], [3]] [] =
      some 6 :=
  grouped_application_eq_direct_call (fun l : List Nat => l.foldl (· + ·) 0)
    3 [[1, 2], [3]] (by decide) (by decide) rfl

/-- Claim C3: when one invocation brings the accumulated count strictly above
the arity, the Source Function is called exactly once (the singleton call
list) and receives the full accumulated sequence, values beyond the first
`arity` positions included — no truncation. -/
theorem overshoot_invokes_once_with_full_sequence {α : Type u} {β : Type v}
    (fn : List α → β) (arity : Nat) (acc nextArgs : List α)
    (h : arity < (acc ++ nextArgs).length) :
    curriedCalls arity (acc ++ nextArgs) = [acc ++ nextArgs] ∧
    invokeStage fn arity acc nextArgs = .result (fn (acc ++ nextArgs)) :=
  ⟨by
    have h' : arity ≤ acc.length + nextArgs.length := by
      simpa using Nat.le_of_lt h
    simp [curriedCalls, h'],
   curried_of_le fn arity _ (Nat.le_of_lt h)⟩

/-- Witness for C3 at the spec's concrete scenario: `curry(f3)(1,2,3,999)`
calls the function once with all four values; with `f3` summing its full
argument list the result is `1005`, proving `999` is not truncated. -/
theorem overshoot_witness :
    curriedCalls 3 ([1, 2, 3, 999] : List Nat) = [[1, 2, 3, 999]] ∧
    invokeStage (fun l : List Nat => l.foldl (· + ·) 0) 3 [] [1, 2, 3, 999] =
      .result 1005 :=
  overshoot_invokes_once_with_full_sequence
    (fun l : List Nat => l.foldl (· + ·) 0) 3 [] [1, 2, 3, 999] (by decide)

/-- Counterexample to claim C4 as stated: with a Source Function of declared
arity 1 that observes its whole argument list (a JS function using a rest
parameter, e.g. `(a, ...rest) => 1 + rest.length`, whose `length` is 1),
`curried` on accumulated `[5, 7]` does not call the function on the first
`arity` values `[5]` (which would give `1`): line 34 spreads the full list,
giving `2`. -/
theorem first_arity_values_counterexample :
    curried (fun l : List Nat => l.length) 1 [5, 7] = .result 2 ∧
    curried (fun l : List Nat => l.length) 1 [5, 7] ≠
      StepResult.result ((fun l : List Nat => l.length) (List.take 1 [5, 7])) := by
  decide

/-- Claim C4 amended: when the new accumulated sequence reaches the arity, the
Source Function is invoked with the entire new accumulated sequence (its first
`arity` values followed by any extras, not a truncation to `arity`), and
whatever it returns is returned to the caller. -/
theorem reach_arity_calls_full_sequence {α : Type u} {β : Type v}
    (fn : List α → β) (arity : Nat) (acc nextArgs : List α)
    (h : arity ≤ (acc ++ nextArgs).length) :
    invokeStage fn arity acc nextArgs = .result (fn (acc ++ nextArgs)) :=
  curried_of_le fn arity _ h

/-- Witness for the amended C4: a stage of arity 2 holding `[1]`, given `[2]`,
returns the Source Function's value on `[1, 2]`. -/
theorem reach_arity_witness :
    invokeStage (fun l : List Nat => l.foldl (· + ·) 0) 2 [1] [2] =
      .result 3 :=
  reach_arity_calls_full_sequence (fun l : List Nat => l.foldl (· + ·) 0)
    2 [1] [2] (by decide)

/-- Claim C5: when the new accumulated count stays strictly below the arity,
the Source Function is not called (empty call list) and the invocation
returns a new stage closing over the combined accumulated sequence. -/
theorem under_arity_returns_new_stage {α : Type u} {β : Type v}
    (fn : List α → β) (arity : Nat) (acc nextArgs : List α)
    (h : (acc ++ nextArgs).length < arity) :
    curriedCalls arity (acc ++ nextArgs) = [] ∧
    invokeStage fn arity acc nextArgs = .next (acc ++ nextArgs) :=
  ⟨by
    have h' : acc.length + nextArgs.length < arity := by simpa using h
    simp [curriedCalls, Nat.not_le.mpr h'],
   curried_of_lt fn arity _ h⟩

/-- Witness for C5: a stage of arity 3 holding `[1]`, given `[2]`, calls
nothing and returns the stage over `[1, 2]`. -/
theorem under_arity_witness :
    curriedCalls 3 ([1, 2] : List Nat) = [] ∧
    invokeStage (fun l : List Nat => l.foldl (· + ·) 0) 3 [1] [2] =
      .next [1, 2] :=
  under_arity_returns_new_stage (fun l : List Nat => l.foldl (· + ·) 0)
    3 [1] [2] (by decide)

/-- Counterexample to claim C6 as stated: `curry` applied to a non-callable
value (e.g. the number `42`) does not fail at transformation time — lines
28-29 perform no validation; the body reads `fn.length` (`undefined`) and
returns the root stage.  The result is `ok` with a stage, not an error. -/
theorem curry_notCallable_counterexample :
    curryTransform (CurryArg.notCallable : CurryArg Nat Nat) =
      Except.ok ⟨CurryArg.notCallable, none, []⟩ := rfl

/-- Claim C6 amended: `curry` performs no runtime validation of its argument
(the `F extends Function` constraint exists only at compile time): for every
input, callable or not, it returns the root stage without error, and for a
non-callable value whose `length` reads as `undefined` the arity test of every
subsequent stage invocation is `false`, so each invocation returns yet another
stage — the failure is never raised at transformation time. -/
theorem curry_no_runtime_validation :
    (∀ (γ : Type u) (δ : Type v) (x : CurryArg γ δ),
        curryTransform x = Except.ok ⟨x, lengthProp x, []⟩) ∧
    (∀ (γ : Type u) (δ : Type v) (acc xs : List γ),
        invokeJSStage (⟨CurryArg.notCallable, none, acc⟩ : JSStage γ δ) xs =
          .next ⟨CurryArg.notCallable, none, acc ++ xs⟩) :=
  ⟨fun _ _ _ => rfl, fun _ _ _ _ => rfl⟩

/-- Claim C7: a Source Function of arity 0 is invoked immediately by the root
stage on any argument list, the empty one included, and its result is
returned; in particular currying the constant function `() => 42` and invoking
the root with no arguments returns `42`. -/
theorem arity_zero_invokes_immediately :
    (∀ (γ : Type u) (δ : Type v) (fn : List γ → δ) (xs : List γ),
        invokeStage fn 0 [] xs = .result (fn xs)) ∧
    invokeStage (fun _ : List Nat => (42 : Nat)) 0 [] [] = .result 42 :=
  ⟨fun _ _ fn xs => curried_of_le fn 0 ([] ++ xs) (Nat.zero_le _), rfl⟩

/-- Claim C8: two invocations of the same intermediate stage (same captured
`acc`) with different trailing sequences yield independent results, each equal
to the Source Function's value on that call path's own arguments — neither
call's arguments appear in the other's accumulated sequence.  The source
builds each path with the non-mutating `args.concat(nextArgs)` (line 37), so a
stage's outcome is a function of its own captured list and its own trailing
arguments only, which is what this theorem states. -/
theorem sibling_invocations_independent {α : Type u} {β : Type v}
    (fn : List α → β) (arity : Nat) (acc xs ys : List α)
    (hx : arity ≤ (acc ++ xs).length) (hy : arity ≤ (acc ++ ys).length) :
    invokeStage fn arity acc xs = .result (fn (acc ++ xs)) ∧
    invokeStage fn arity acc ys = .result (fn (acc ++ ys)) :=
  ⟨curried_of_le fn arity _ hx, curried_of_le fn arity _ hy⟩

/-- Witness for C8: the stage of arity 2 holding `[10]`, invoked once with
`[5]` and once with `[90]`, returns `15` and `100` — each branch sees only its
own trailing argument. -/
theorem sibling_invocations_witness :
    invokeStage (fun l : List Nat => l.foldl (· + ·) 0) 2 [10] [5] =
      .result 15 ∧
    invokeStage (fun l : List Nat => l.foldl (· + ·) 0) 2 [10] [90] =
      .result 100 :=
  sibling_invocations_independent (fun l : List Nat => l.foldl (· + ·) 0)
    2 [10] [5] [90] (by decide) (by decide)

/-- Claim C9: every stage invocation is a total, synchronous computation: it
always reduces to exactly one of the two outcomes — the Source Function's
result or a new stage.  (`invokeStage` is a total Lean function, so
termination holds by construction whenever the Source Function itself is a
total function.) -/
theorem stage_invocation_total {α : Type u} {β : Type v}
    (fn : List α → β) (arity : Nat) (acc xs : List α) :
    (∃ b, invokeStage fn arity acc xs = .result b) ∨
    (∃ acc', invokeStage fn arity acc xs = .next acc') := by
  by_cases h : arity ≤ (acc ++ xs).length
  · exact Or.inl ⟨fn (acc ++ xs), curried_of_le fn arity _ h⟩
  · exact Or.inr ⟨acc ++ xs, curried_of_lt fn arity _ (Nat.not_le.mp h)⟩

/-- Claim C10: invoking a stage that is still below arity with zero arguments
is accepted (line 37 computes `args.concat([]) = args`) and returns a new
stage over the same accumulated sequence, which therefore behaves identically
to the invoked stage on every further argument list — a no-op. -/
theorem zero_argument_call_is_noop {α : Type u} {β : Type v}
    (fn : List α → β) (arity : Nat) (acc : List α) (h : acc.length < arity) :
    invokeStage fn arity acc [] = .next acc ∧
    (∀ xs : List α,
        invokeStage fn arity (acc ++ []) xs = invokeStage fn arity acc xs) := by
  refine ⟨?_, fun xs => by simp⟩
  have hc := curried_of_lt fn arity (acc ++ []) (by simpa using h)
  simpa [invokeStage] using hc

/-- Witness for C10: the stage of arity 2 holding `[7]`, invoked with no
arguments, returns the stage over `[7]`, and that stage agrees with the
original on the further argument list `[10]`. -/
theorem zero_argument_call_witness :
    invokeStage (fun l : List Nat => l.foldl (· + ·) 0) 2 [7] [] =
      .next [7] ∧
    invokeStage (fun l : List Nat => l.foldl (· + ·) 0) 2 ([7] ++ []) [10] =
      invokeStage (fun l : List Nat => l.foldl (· + ·) 0) 2 [7] [10] :=
  ⟨(zero_argument_call_is_noop (fun l : List Nat => l.foldl (· + ·) 0) 2 [7]
      (by decide)).1,
   (zero_argument_call_is_noop (fun l : List Nat => l.foldl (· + ·) 0) 2 [7]
      (by decide)).2 [10]⟩

end Curry
